import Mathlib

/-!
# QOwnNotes `DatabaseService`: schema bootstrap and version-gated migration

A shallow embedding of `src/services/databaseservice.cpp`.

* The SQL engine is modelled at the level of the schema (tables with their
  columns, indexes) and of the rows of the `appData` key/value table.  Rows of
  the other tables are not tracked.
* Every operation that the C++ code hands to the outside world (a statement
  executed on a connection, opening a connection, removing the file) consults a
  fault oracle `Faults`: the operation succeeds when the oracle lets it through
  and the schema allows it.  The oracle stands for every cause of failure that
  the schema-level model does not track (I/O errors, locks, constraint
  violations on untracked rows, ...).
* Each such operation is appended, with its outcome, to `World.log`, so that
  "which statements were issued" is observable.
-/

set_option autoImplicit false

namespace DatabaseService

/-! ## Strings and integers: `QString::toInt`, `QString::number` -/

/-- White space skipped by `QString::toInt` (ASCII range of `QChar::isSpace`). -/
def isSpace (c : Char) : Bool :=
  c == ' ' || (9 ≤ c.toNat && c.toNat ≤ 13)

/-- The text without leading and trailing white space. -/
def trimmed (cs : List Char) : List Char :=
  ((cs.dropWhile isSpace).reverse.dropWhile isSpace).reverse

/-- Value of a decimal digit character. -/
def digitValue (c : Char) : Option Nat :=
  if 48 ≤ c.toNat ∧ c.toNat ≤ 57 then some (c.toNat - 48) else none

/-- Reads decimal digits to the end of the text, continuing from `acc`. -/
def parseDigitsFrom : Nat → List Char → Option Nat
  | acc, [] => some acc
  | acc, c :: cs =>
    match digitValue c with
    | some d => parseDigitsFrom (acc * 10 + d) cs
    | none => none

/-- A non-empty run of decimal digits. -/
def parseUnsigned : List Char → Option Nat
  | [] => none
  | c :: cs => parseDigitsFrom 0 (c :: cs)

/-- An optional sign followed by a non-empty run of decimal digits. -/
def parseSigned : List Char → Option Int
  | '-' :: cs => (parseUnsigned cs).map (fun n => -(n : Int))
  | '+' :: cs => (parseUnsigned cs).map (fun n => (n : Int))
  | cs => (parseUnsigned cs).map (fun n => (n : Int))

/-- `QString::toInt()` in base 10: the value of the text when it is a decimal
integer (white space around it allowed) that fits a 32-bit `int`, and `0` when
the conversion fails. -/
def toInt (s : String) : Int :=
  match parseSigned (trimmed s.data) with
  | some v => if -2147483648 ≤ v ∧ v ≤ 2147483647 then v else 0
  | none => 0

/-- `QString::number(int)`: the decimal text of an integer. -/
def number (n : Int) : String := toString n

/-! ## The SQL engine, at schema level -/

/-- A table: its name and the names of its columns. -/
structure Table where
  name : String
  columns : List String
deriving DecidableEq

/-- A (unique) index on one column of a table. -/
structure Index where
  name : String
  table : String
  column : String
deriving DecidableEq

/-- One SQLite database: schema plus the rows of table `appData`
(`name` is its primary key). -/
structure Database where
  tables : List Table
  indexes : List Index
  appData : List (String × String)
deriving DecidableEq

/-- The statements issued by `DatabaseService`. -/
inductive Stmt where
  /-- `CREATE TABLE name (columns...)` -/
  | createTable (name : String) (columns : List String)
  /-- `CREATE UNIQUE INDEX name ON table( column )` -/
  | createUniqueIndex (name table column : String)
  /-- `ALTER TABLE table ADD column ...` -/
  | addColumn (table column : String)
  /-- `REPLACE INTO appData ( name, value ) VALUES ( :name, :value )` -/
  | replaceAppData (name value : String)
  /-- `SELECT value FROM appData WHERE name = :name` -/
  | selectAppData (name : String)
deriving DecidableEq

namespace Database

/-- A database file that has just been created. -/
def empty : Database := ⟨[], [], []⟩

def hasTable (db : Database) (n : String) : Bool :=
  db.tables.any (fun t => t.name == n)

def hasIndex (db : Database) (n : String) : Bool :=
  db.indexes.any (fun i => i.name == n)

def hasColumn (db : Database) (t c : String) : Bool :=
  db.tables.any (fun tb => tb.name == t && tb.columns.contains c)

/-- Executes one statement.  `none`: the statement fails and the database is
unchanged.  `some (db, rows)`: it succeeds, leaving `db` and the result set
`rows` (empty for everything but `SELECT`). -/
def run (db : Database) : Stmt → Option (Database × List String)
  | .createTable n cols =>
    if db.hasTable n || db.hasIndex n then none
    else some ({ db with
                 tables := db.tables ++ [⟨n, cols⟩]
                 appData := if n = "appData" then [] else db.appData }, [])
  | .createUniqueIndex n t c =>
    if db.hasColumn t c && !(db.hasTable n || db.hasIndex n) then
      some ({ db with indexes := db.indexes ++ [⟨n, t, c⟩] }, [])
    else none
  | .addColumn t c =>
    if db.hasTable t && !db.hasColumn t c then
      some ({ db with
              tables := db.tables.map (fun tb =>
                if tb.name == t then { tb with columns := tb.columns ++ [c] } else tb) }, [])
    else none
  | .replaceAppData n v =>
    if db.hasTable "appData" then
      some ({ db with appData := db.appData.filter (fun r => r.1 != n) ++ [(n, v)] }, [])
    else none
  | .selectAppData n =>
    if db.hasTable "appData" then
      some (db, (db.appData.filter (fun r => r.1 == n)).map Prod.snd)
    else none

end Database

/-! ## The world around the service -/

/-- What `DatabaseService` asks of its environment. -/
inductive Op where
  /-- `QFile::remove` on the disk database file -/
  | removeFile
  /-- `open()` of connection "memory" -/
  | openMemory
  /-- `open()` of connection "disk" -/
  | openDisk
  /-- a statement on connection "disk" -/
  | disk (s : Stmt)
  /-- a statement on connection "memory" -/
  | memory (s : Stmt)
  /-- the call of `CalendarItem::updateAllSortPriorities` -/
  | hook
deriving DecidableEq

/-- Fault oracle: `f op = false` makes `op` fail whatever the schema says. -/
abbrev Faults := Op → Bool

/-- The oracle without faults. -/
def noFaults : Faults := fun _ => true

/-- Process and file-system state seen by the service. -/
structure World where
  /-- content of the file at `getDiskDatabasePath()`; `none`: no such file -/
  file : Option Database
  /-- connection "disk" is usable: registered and open.  When false, either no
  such connection is registered or it cannot be opened, and every statement on
  it fails -/
  diskOpen : Bool
  /-- the in-memory database of connection "memory"; `none`: not open -/
  memory : Option Database
  /-- operations handed to the environment so far, with their outcome -/
  log : List (Op × Bool)
deriving DecidableEq

/-- `QSqlQuery::exec` on connection "disk".  The result is `none` when `exec`
returns false, and the result set otherwise. -/
def execDisk (f : Faults) (w : World) (s : Stmt) : World × Option (List String) :=
  match (if w.diskOpen && f (.disk s) then w.file.bind (fun db => db.run s) else none) with
  | some (db, rows) =>
    ({ w with file := some db, log := w.log ++ [(.disk s, true)] }, some rows)
  | none => ({ w with log := w.log ++ [(.disk s, false)] }, none)

/-- `QSqlQuery::exec` on connection "memory". -/
def execMemory (f : Faults) (w : World) (s : Stmt) : World × Option (List String) :=
  match (if f (.memory s) then w.memory.bind (fun db => db.run s) else none) with
  | some (db, rows) =>
    ({ w with memory := some db, log := w.log ++ [(.memory s, true)] }, some rows)
  | none => ({ w with log := w.log ++ [(.memory s, false)] }, none)

/-- Modelled from the spec: `CalendarItem::updateAllSortPriorities` (declared in
`entities/calendaritem.h`, not part of the sources at hand) is the domain hook
of step 2; it recomputes a derived sort field on the existing rows of
`calendarItem`, reports nothing to its caller, and touches neither the schema
nor `appData`.  The rows of `calendarItem` are not tracked, so only the call is
recorded. -/
def updateAllSortPriorities (w : World) : World :=
  { w with log := w.log ++ [(.hook, true)] }

/-! ## `DatabaseService` -/

/-- `DatabaseService::removeDiskDatabase` (lines 39-48). -/
def removeDiskDatabase (f : Faults) (w : World) : World × Bool :=
  match w.file with
  | some _ =>
    if f .removeFile then
      ({ w with file := none, log := w.log ++ [(.removeFile, true)] }, true)
    else ({ w with log := w.log ++ [(.removeFile, false)] }, false)
  | none => (w, false)

/-- `DatabaseService::createMemoryConnection` (lines 58-74): a fresh in-memory
database replaces connection "memory". -/
def createMemoryConnection (f : Faults) (w : World) : World × Bool :=
  if f .openMemory then
    ({ w with memory := some Database.empty, log := w.log ++ [(.openMemory, true)] }, true)
  else ({ w with memory := none, log := w.log ++ [(.openMemory, false)] }, false)

/-- `DatabaseService::createDiskConnection` (lines 76-92): connection "disk" is
replaced by one opened on the database file, which is created when absent. -/
def createDiskConnection (f : Faults) (w : World) : World × Bool :=
  if f .openDisk then
    ({ w with file := some (w.file.getD Database.empty), diskOpen := true,
              log := w.log ++ [(.openDisk, true)] }, true)
  else ({ w with diskOpen := false, log := w.log ++ [(.openDisk, false)] }, false)

/-- `DatabaseService::createConnection` (lines 50-52). -/
def createConnection (f : Faults) (w : World) : World × Bool :=
  let r := createMemoryConnection f w
  if r.2 then createDiskConnection f r.1 else (r.1, false)

/-- `DatabaseService::setAppData` (lines 156-165). -/
def setAppData (f : Faults) (w : World) (name value : String) : World × Bool :=
  let r := execDisk f w (.replaceAppData name value)
  (r.1, r.2.isSome)

/-- `DatabaseService::getAppData` (lines 167-181). -/
def getAppData (f : Faults) (w : World) (name : String) : World × String :=
  let r := execDisk f w (.selectAppData name)
  match r.2 with
  | none => (r.1, "")
  | some (v :: _) => (r.1, v)
  | some [] => (r.1, "")

/-- Line 98. -/
def createAppData : Stmt := .createTable "appData" ["name", "value"]

/-- Line 106. -/
def createNote : Stmt :=
  .createTable "note"
    ["id", "name", "file_name", "note_text", "decrypted_note_text", "has_dirty_data",
     "file_last_modified", "file_created", "crypto_key", "crypto_password", "created",
     "modified"]

/-- Line 121. -/
def createCalendarItem : Stmt :=
  .createTable "calendarItem"
    ["id", "summary", "url", "description", "has_dirty_data", "completed", "priority",
     "calendar", "uid", "ics_data", "alarm_date", "etag", "last_modified_string",
     "created", "modified"]

/-- Line 138. -/
def createIdxUrl : Stmt := .createUniqueIndex "idxUrl" "calendarItem" "url"

/-- Line 139. -/
def addCompletedDate : Stmt := .addColumn "calendarItem" "completed_date"

/-- Line 140. -/
def addSortPriority : Stmt := .addColumn "calendarItem" "sort_priority"

/-- Lines 120-144 when `version < 1`: the DDL of step 1. -/
def step1 (f : Faults) (w : World) : World :=
  let w := (execDisk f w createCalendarItem).1
  let w := (execDisk f w createIdxUrl).1
  let w := (execDisk f w addCompletedDate).1
  (execDisk f w addSortPriority).1

/-- `DatabaseService::setupTables` (lines 94-154). -/
def setupTables (f : Faults) (w : World) : World × Bool :=
  let w := (execDisk f w createAppData).1
  let r := getAppData f w "database_version"
  let w := r.1
  let version := toInt r.2
  let w := (execMemory f w createNote).1
  let s1 := if version < 1 then (step1 f w, (1 : Int)) else (w, version)
  let s2 := if s1.2 < 2 then (updateAllSortPriorities s1.1, (2 : Int)) else s1
  let w := (setAppData f s2.1 "database_version" (number s2.2)).1
  (w, true)

/-- `DatabaseService::reinitializeDiskDatabase` (lines 54-56). -/
def reinitializeDiskDatabase (f : Faults) (w : World) : World × Bool :=
  let r := removeDiskDatabase f w
  if r.2 then
    let c := createDiskConnection f r.1
    if c.2 then setupTables f c.1 else (c.1, false)
  else (r.1, false)

/-! ## Observations used in the statements -/

/-- The value of the local variable `version` of `setupTables` after line 101. -/
def versionRead (f : Faults) (w : World) : Int :=
  toInt (getAppData f (execDisk f w createAppData).1 "database_version").2

/-- The schema version stored in a database: the `database_version` entry of
`appData` read the way line 101 reads it (`0` when the table or the entry is
missing or the text is no 32-bit integer). -/
def Database.version (db : Database) : Int :=
  match db.run (.selectAppData "database_version") with
  | some (_, v :: _) => toInt v
  | _ => 0

/-- The schema version stored in the disk database file (`0` without a file). -/
def storedVersion (w : World) : Int :=
  match w.file with
  | some db => db.version
  | none => 0

/-- What one call added to the log. -/
def callLog (before after : World) : List (Op × Bool) :=
  after.log.drop before.log.length

/-- The operations attempted, outcomes dropped. -/
def attempted (l : List (Op × Bool)) : List Op := l.map Prod.fst

/-- The migration steps that a sequence of operations applies: step 1 shows by
its first statement, step 2 by its hook. -/
def appliedSteps (l : List Op) : List Nat :=
  l.filterMap (fun o =>
    if o = .disk createCalendarItem then some 1
    else if o = .hook then some 2
    else none)

/-- The values passed to `setAppData` under `database_version`. -/
def versionsWritten (l : List Op) : List String :=
  l.filterMap (fun o =>
    match o with
    | .disk (.replaceAppData n v) => if n = "database_version" then some v else none
    | _ => none)

/-- Data definition language statements: everything but `REPLACE` and `SELECT`. -/
def Stmt.isDDL : Stmt → Bool
  | .createTable _ _ => true
  | .createUniqueIndex _ _ _ => true
  | .addColumn _ _ => true
  | .replaceAppData _ _ => false
  | .selectAppData _ => false

/-- The DDL statements issued on the disk connection. -/
def diskDDL (l : List Op) : List Stmt :=
  l.filterMap (fun o =>
    match o with
    | .disk s => if s.isDDL then some s else none
    | _ => none)

/-- The world of `setupTables` just before line 151, the version write. -/
def beforeWrite (f : Faults) (w : World) : World :=
  let w3 := (execMemory f
    (getAppData f (execDisk f w createAppData).1 "database_version").1 createNote).1
  let w4 := if versionRead f w < 1 then step1 f w3 else w3
  if versionRead f w < 2 then updateAllSortPriorities w4 else w4

/-- The schema of the disk database file. -/
def World.schema (w : World) : Option (List Table × List Index) :=
  w.file.map (fun db => (db.tables, db.indexes))

/-- The worlds that a sequence of `setupTables` invocations goes through, one
fault oracle per invocation, the starting world first. -/
def runAll : List Faults → World → List World
  | [], w => [w]
  | f :: fs, w => w :: runAll fs (setupTables f w).1

/-- The disk database after the complete migration of an empty file. -/
def migratedDb : Database :=
  ⟨[⟨"appData", ["name", "value"]⟩,
    ⟨"calendarItem",
      ["id", "summary", "url", "description", "has_dirty_data", "completed", "priority",
       "calendar", "uid", "ics_data", "alarm_date", "etag", "last_modified_string",
       "created", "modified", "completed_date", "sort_priority"]⟩],
   [⟨"idxUrl", "calendarItem", "url"⟩],
   [("database_version", "2")]⟩

/-- The oracle that fails exactly one operation. -/
def failOnly (op : Op) : Faults := fun o => decide (o ≠ op)

/-- Before the bootstrap: no database file, no connection. -/
def noFileWorld : World := ⟨none, false, none, []⟩

/-- Both connections open on empty databases. -/
def freshWorld : World := ⟨some Database.empty, true, some Database.empty, []⟩

/-- Both connections open on migrated databases, the version entry of the
disk database being `v`. -/
def stampedWorld (v : String) : World :=
  ⟨some { migratedDb with appData := [("database_version", v)] }, true,
    some ⟨[⟨"note",
      ["id", "name", "file_name", "note_text", "decrypted_note_text", "has_dirty_data",
       "file_last_modified", "file_created", "crypto_key", "crypto_password", "created",
       "modified"]⟩], [], []⟩, []⟩

/-- The operations of one `setupTables` call whose local `version` is `k` after
line 101, read off the source text in order. -/
def plannedOps (k : Int) : List Op :=
  [.disk createAppData, .disk (.selectAppData "database_version"), .memory createNote]
    ++ (if k < 1 then
          [.disk createCalendarItem, .disk createIdxUrl, .disk addCompletedDate,
           .disk addSortPriority]
        else [])
    ++ (if k < 2 then [.hook] else [])
    ++ [.disk (.replaceAppData "database_version" (number (max k 2)))]

/-- The rows of table `appData`, `none` when the table does not exist. -/
def Database.appDataRows (db : Database) : Option (List (String × String)) :=
  if db.hasTable "appData" then some db.appData else none

/-- The rows of table `appData` in the disk database file. -/
def World.rows (w : World) : Option (List (String × String)) :=
  w.file.bind Database.appDataRows

/-- The value that `SELECT value FROM appData WHERE name = :name` offers first,
`""` when there is none. -/
def valueOfRows (name : String) : Option (List (String × String)) → String
  | some rows =>
    match (rows.filter (fun r => r.1 == name)).map Prod.snd with
    | v :: _ => v
    | [] => ""
  | none => ""

/-! ## Lemmas: `toInt` reads back what `number` prints -/

theorem digitChar_spec (d : Nat) (h : d < 10) :
    digitValue (Nat.digitChar d) = some d ∧ isSpace (Nat.digitChar d) = false ∧
      Nat.digitChar d ≠ '-' ∧ Nat.digitChar d ≠ '+' := by
  interval_cases d <;> decide

theorem toDigitsCore_append (fuel n : Nat) (acc : List Char) :
    Nat.toDigitsCore 10 fuel n acc = Nat.toDigitsCore 10 fuel n [] ++ acc := by
  induction fuel generalizing n acc with
  | zero => simp [Nat.toDigitsCore]
  | succ fuel ih =>
    simp only [Nat.toDigitsCore]
    split
    · simp
    · rw [ih, ih (n / 10) [_]]
      simp

theorem toDigitsCore_digits (fuel n : Nat) (acc : List Char) :
    ∀ c ∈ Nat.toDigitsCore 10 fuel n acc, c ∈ acc ∨ ∃ d, d < 10 ∧ c = Nat.digitChar d := by
  induction fuel generalizing n acc with
  | zero => intro c hc; exact Or.inl (by simpa [Nat.toDigitsCore] using hc)
  | succ fuel ih =>
    intro c hc
    simp only [Nat.toDigitsCore] at hc
    have hd : n % 10 < 10 := Nat.mod_lt _ (by decide)
    split at hc
    · rcases List.mem_cons.1 hc with h | h
      · exact Or.inr ⟨_, hd, h⟩
      · exact Or.inl h
    · rcases ih _ _ c hc with h | h
      · rcases List.mem_cons.1 h with h | h
        · exact Or.inr ⟨_, hd, h⟩
        · exact Or.inl h
      · exact Or.inr h

theorem parse_toDigitsCore (fuel : Nat) :
    ∀ (n a : Nat) (rest : List Char), n < fuel →
      parseDigitsFrom a (Nat.toDigitsCore 10 fuel n [] ++ rest) =
        parseDigitsFrom (a * 10 ^ (Nat.toDigitsCore 10 fuel n []).length + n) rest := by
  induction fuel with
  | zero => intro n a rest h; omega
  | succ fuel ih =>
    intro n a rest h
    have hd := (digitChar_spec (n % 10) (Nat.mod_lt _ (by decide))).1
    simp only [Nat.toDigitsCore]
    split
    · rename_i h0
      have hn : n % 10 = n := by omega
      rw [hn] at hd
      simp [parseDigitsFrom, hd, hn]
    · rename_i h0
      have hlt : n / 10 < fuel := by omega
      rw [toDigitsCore_append, List.append_assoc, ih (n / 10) a _ hlt]
      simp only [List.singleton_append, parseDigitsFrom, hd, List.length_append,
        List.length_singleton, pow_succ]
      congr 1
      have := Nat.div_add_mod n 10
      nlinarith [this]

theorem toDigits_ne_nil (n : Nat) : Nat.toDigits 10 n ≠ [] := by
  unfold Nat.toDigits
  simp only [Nat.toDigitsCore]
  split
  · simp
  · rw [toDigitsCore_append]; simp

theorem parseUnsigned_toDigits (n : Nat) : parseUnsigned (Nat.toDigits 10 n) = some n := by
  have h := parse_toDigitsCore (n + 1) n 0 [] (Nat.lt_succ_self n)
  simp only [List.append_nil, Nat.zero_mul, Nat.zero_add, parseDigitsFrom] at h
  have hne := toDigits_ne_nil n
  unfold Nat.toDigits at hne ⊢
  cases hcs : Nat.toDigitsCore 10 (n + 1) n [] with
  | nil => exact absurd hcs hne
  | cons c cs => rw [hcs] at h; simpa [parseUnsigned] using h

theorem toDigits_digit (n : Nat) :
    ∀ c ∈ Nat.toDigits 10 n, ∃ d, d < 10 ∧ c = Nat.digitChar d := by
  intro c hc
  rcases toDigitsCore_digits _ _ _ c hc with h | h
  · simp at h
  · exact h

theorem dropWhile_of_all_false {p : Char → Bool} (l : List Char)
    (h : ∀ c ∈ l, p c = false) : l.dropWhile p = l := by
  cases l with
  | nil => rfl
  | cons c cs => simp [List.dropWhile, h c (List.mem_cons_self _ _)]

theorem trimmed_of_no_space (l : List Char) (h : ∀ c ∈ l, isSpace c = false) :
    trimmed l = l := by
  unfold trimmed
  rw [dropWhile_of_all_false l h, dropWhile_of_all_false l.reverse (by simpa using h)]
  simp

theorem toInt_number_nat (n : Nat) (h : n ≤ 2147483647) : toInt (number (n : Int)) = n := by
  have hdata : (number (n : Int)).data = Nat.toDigits 10 n := rfl
  have hsp : ∀ c ∈ Nat.toDigits 10 n, isSpace c = false := by
    intro c hc
    obtain ⟨d, hd, rfl⟩ := toDigits_digit n c hc
    exact (digitChar_spec d hd).2.1
  have hpu := parseUnsigned_toDigits n
  unfold toInt
  rw [hdata, trimmed_of_no_space _ hsp]
  cases hcs : Nat.toDigits 10 n with
  | nil => exact absurd hcs (toDigits_ne_nil n)
  | cons c cs =>
    obtain ⟨d, hd, hc⟩ := toDigits_digit n c (by rw [hcs]; exact List.mem_cons_self _ _)
    have h1 : c ≠ '-' := hc ▸ (digitChar_spec d hd).2.2.1
    have h2 : c ≠ '+' := hc ▸ (digitChar_spec d hd).2.2.2
    rw [hcs] at hpu
    have hps : parseSigned (c :: cs) = some (n : Int) := by
      unfold parseSigned
      split
      · rename_i heq; cases heq; exact absurd rfl h1
      · rename_i heq; cases heq; exact absurd rfl h2
      · simp [hpu]
    rw [hps]
    have : (-2147483648 : Int) ≤ n ∧ (n : Int) ≤ 2147483647 := by omega
    simp [this]

/-! ## Lemmas: the log -/

theorem execDisk_log (f : Faults) (w : World) (s : Stmt) :
    (execDisk f w s).1.log = w.log ++ [(.disk s, (execDisk f w s).2.isSome)] := by
  unfold execDisk
  split <;> simp

theorem execMemory_log (f : Faults) (w : World) (s : Stmt) :
    (execMemory f w s).1.log = w.log ++ [(.memory s, (execMemory f w s).2.isSome)] := by
  unfold execMemory
  split <;> simp

theorem getAppData_fst (f : Faults) (w : World) (name : String) :
    (getAppData f w name).1 = (execDisk f w (.selectAppData name)).1 := by
  unfold getAppData
  simp only []
  split <;> rfl

/-- The body of `setupTables` with the local `version` named. -/
theorem setupTables_eq (f : Faults) (w : World) :
    setupTables f w =
      ((setAppData f (beforeWrite f w) "database_version"
          (number (max (versionRead f w) 2))).1, true) := by
  unfold setupTables beforeWrite versionRead
  simp only []
  by_cases h1 : toInt (getAppData f (execDisk f w createAppData).1 "database_version").2 < 1
  · have h2 : toInt (getAppData f (execDisk f w createAppData).1 "database_version").2 < 2 := by
      omega
    have hm : max (toInt (getAppData f (execDisk f w createAppData).1
        "database_version").2) 2 = 2 := by omega
    simp [h1, h2, hm]
  · by_cases h2 : toInt (getAppData f (execDisk f w createAppData).1 "database_version").2 < 2
    · have hm : max (toInt (getAppData f (execDisk f w createAppData).1
          "database_version").2) 2 = 2 := by omega
      simp [h1, h2, hm]
    · have hm : max (toInt (getAppData f (execDisk f w createAppData).1
          "database_version").2) 2 =
          toInt (getAppData f (execDisk f w createAppData).1 "database_version").2 := by omega
      simp [h1, h2, hm]

theorem beforeWrite_attempted (f : Faults) (w : World) :
    attempted (beforeWrite f w).log = attempted w.log ++
      ([.disk createAppData, .disk (.selectAppData "database_version"), .memory createNote]
        ++ (if versionRead f w < 1 then
              [.disk createCalendarItem, .disk createIdxUrl, .disk addCompletedDate,
               .disk addSortPriority]
            else [])
        ++ (if versionRead f w < 2 then [.hook] else [])) := by
  unfold beforeWrite
  by_cases h1 : versionRead f w < 1 <;> by_cases h2 : versionRead f w < 2 <;>
    simp [h1, h2, attempted, step1, updateAllSortPriorities, execDisk_log, execMemory_log,
      getAppData_fst]

theorem setupTables_attempted (f : Faults) (w : World) :
    attempted (setupTables f w).1.log = attempted w.log ++ plannedOps (versionRead f w) := by
  rw [setupTables_eq]
  have h := beforeWrite_attempted f w
  unfold attempted at h ⊢
  simp only [setAppData, execDisk_log, List.map_append, h, plannedOps, List.append_assoc,
    List.map_cons, List.map_nil]

theorem attempted_callLog (w w2 : World) (l : List Op)
    (h : attempted w2.log = attempted w.log ++ l) : attempted (callLog w w2) = l := by
  unfold callLog attempted at *
  rw [List.map_drop, h]
  have : w.log.length = (List.map Prod.fst w.log).length := by simp
  rw [this, List.drop_left]

theorem setupTables_callLog (f : Faults) (w : World) :
    attempted (callLog w (setupTables f w).1) = plannedOps (versionRead f w) :=
  attempted_callLog _ _ _ (setupTables_attempted f w)

/-! ## Lemmas: the rows of `appData` -/

theorem toInt_empty : toInt "" = 0 := by decide

theorem toInt_range (s : String) : -2147483648 ≤ toInt s ∧ toInt s ≤ 2147483647 := by
  unfold toInt
  split
  · split_ifs with h
    · exact h
    · omega
  · omega

theorem filter_replace (r : List (String × String)) (n v : String) :
    ((r.filter (fun x => x.1 != n)) ++ [(n, v)]).filter (fun x => x.1 == n) = [(n, v)] := by
  simp [List.filter_append, List.filter_filter]

theorem storedVersion_eq (w : World) :
    storedVersion w = toInt (valueOfRows "database_version" w.rows) := by
  unfold storedVersion World.rows
  cases hfile : w.file with
  | none => simp [valueOfRows, toInt_empty]
  | some db =>
    simp only [Option.bind, Database.version, Database.run, Database.appDataRows]
    by_cases ht : db.hasTable "appData" = true
    · simp only [ht, if_true, valueOfRows]
      cases (List.filter (fun r => r.1 == "database_version") db.appData).map Prod.snd with
      | nil => simp [toInt_empty]
      | cons v vs => simp
    · simp [ht, valueOfRows, toInt_empty]

theorem execDisk_diskOpen (f : Faults) (w : World) (s : Stmt) :
    (execDisk f w s).1.diskOpen = w.diskOpen := by
  unfold execDisk
  split <;> rfl

theorem execMemory_file (f : Faults) (w : World) (s : Stmt) :
    (execMemory f w s).1.file = w.file ∧ (execMemory f w s).1.diskOpen = w.diskOpen := by
  unfold execMemory
  split <;> exact ⟨rfl, rfl⟩

/-- What `execDisk` does, case by case. -/
theorem execDisk_cases (f : Faults) (w : World) (s : Stmt) :
    ((execDisk f w s).2 = none ∧ (execDisk f w s).1.file = w.file ∧
        (w.diskOpen = false ∨ f (.disk s) = false ∨ w.file = none ∨
          ∃ db, w.file = some db ∧ db.run s = none)) ∨
    (∃ db db2 rows, w.diskOpen = true ∧ f (.disk s) = true ∧ w.file = some db ∧
        db.run s = some (db2, rows) ∧ (execDisk f w s).2 = some rows ∧
        (execDisk f w s).1.file = some db2) := by
  unfold execDisk
  by_cases ho : w.diskOpen = true
  · by_cases hf : f (.disk s) = true
    · cases hfile : w.file with
      | none => left; simp [ho, hf]
      | some db =>
        cases hrun : db.run s with
        | none => left; simp [ho, hf, hrun]
        | some p =>
          right
          exact ⟨db, p.1, p.2, ho, hf, rfl, hrun, by simp [ho, hf, hrun], by simp [ho, hf, hrun]⟩
    · left; simp [ho, hf]
  · left; simp [ho]

theorem any_name_map (ts : List Table) (g : Table → Table) (n : String)
    (hg : ∀ t, (g t).name = t.name) :
    (ts.map g).any (fun t => t.name == n) = ts.any (fun t => t.name == n) := by
  induction ts with
  | nil => rfl
  | cons t ts ih => simp only [List.map_cons, List.any_cons, ih, hg]

theorem run_createTable_rows (db db2 : Database) (rows : List String) (n : String)
    (cols : List String) (hn : n ≠ "appData")
    (h : db.run (.createTable n cols) = some (db2, rows)) :
    db2.appDataRows = db.appDataRows := by
  simp only [Database.run, hn, if_false] at h
  split_ifs at h
  simp only [Option.some.injEq, Prod.mk.injEq] at h
  rw [← h.1]
  simp [Database.appDataRows, Database.hasTable, hn]

theorem run_createUniqueIndex_rows (db db2 : Database) (rows : List String)
    (n t c : String) (h : db.run (.createUniqueIndex n t c) = some (db2, rows)) :
    db2.appDataRows = db.appDataRows := by
  simp only [Database.run] at h
  split_ifs at h
  simp only [Option.some.injEq, Prod.mk.injEq] at h
  rw [← h.1]
  simp [Database.appDataRows, Database.hasTable]

theorem run_addColumn_rows (db db2 : Database) (rows : List String)
    (t c : String) (h : db.run (.addColumn t c) = some (db2, rows)) :
    db2.appDataRows = db.appDataRows := by
  simp only [Database.run] at h
  split_ifs at h
  simp only [Option.some.injEq, Prod.mk.injEq] at h
  rw [← h.1]
  simp only [Database.appDataRows, Database.hasTable]
  rw [any_name_map]
  intro tb
  split_ifs <;> rfl

theorem run_step_rows (db db2 : Database) (rows : List String) (s : Stmt)
    (hs : s = createCalendarItem ∨ s = createIdxUrl ∨ s = addCompletedDate ∨
      s = addSortPriority)
    (h : db.run s = some (db2, rows)) : db2.appDataRows = db.appDataRows := by
  rcases hs with rfl | rfl | rfl | rfl
  · exact run_createTable_rows db db2 rows _ _ (by decide) h
  · exact run_createUniqueIndex_rows db db2 rows _ _ _ h
  · exact run_addColumn_rows db db2 rows _ _ h
  · exact run_addColumn_rows db db2 rows _ _ h

theorem execDisk_step_rows (f : Faults) (w : World) (s : Stmt)
    (hs : s = createCalendarItem ∨ s = createIdxUrl ∨ s = addCompletedDate ∨
      s = addSortPriority) : (execDisk f w s).1.rows = w.rows := by
  rcases execDisk_cases f w s with ⟨_, h, _⟩ | ⟨db, db2, rows, _, _, hfile, hrun, _, h⟩
  · simp [World.rows, h]
  · simp [World.rows, h, hfile, run_step_rows db db2 rows s hs hrun]

theorem step1_rows (f : Faults) (w : World) :
    (step1 f w).rows = w.rows ∧ (step1 f w).diskOpen = w.diskOpen := by
  unfold step1
  simp only [execDisk_diskOpen, and_true]
  rw [execDisk_step_rows _ _ _ (Or.inr (Or.inr (Or.inr rfl))),
    execDisk_step_rows _ _ _ (Or.inr (Or.inr (Or.inl rfl))),
    execDisk_step_rows _ _ _ (Or.inr (Or.inl rfl)),
    execDisk_step_rows _ _ _ (Or.inl rfl)]

theorem execDisk_createAppData_rows (f : Faults) (w : World) :
    (execDisk f w createAppData).1.rows = w.rows ∨
      (w.rows = none ∧ (execDisk f w createAppData).1.rows = some []) := by
  rcases execDisk_cases f w createAppData with
    ⟨_, h, _⟩ | ⟨db, db2, rows, _, _, hfile, hrun, _, h⟩
  · left; simp [World.rows, h]
  · right
    simp only [createAppData, Database.run] at hrun
    split_ifs at hrun with hc
    simp only [Option.some.injEq, Prod.mk.injEq] at hrun
    simp only [Bool.or_eq_true, not_or, Bool.not_eq_true] at hc
    constructor
    · simp [World.rows, hfile, Database.appDataRows, hc.1]
    · rw [World.rows, h, ← hrun.1]
      simp only [Option.bind, Database.appDataRows, Database.hasTable, List.any_append,
        List.any_cons, List.any_nil]
      simp

theorem execDisk_select (f : Faults) (w : World) (n : String) :
    (execDisk f w (.selectAppData n)).1.file = w.file := by
  rcases execDisk_cases f w (.selectAppData n) with
    ⟨_, h, _⟩ | ⟨db, db2, rows, _, _, hfile, hrun, _, h⟩
  · exact h
  · simp only [Database.run] at hrun
    split_ifs at hrun
    simp only [Option.some.injEq, Prod.mk.injEq] at hrun
    rw [h, hfile, hrun.1]

theorem getAppData_value (f : Faults) (w : World) (n : String) :
    (getAppData f w n).2 =
      if w.diskOpen && f (.disk (.selectAppData n)) then valueOfRows n w.rows else "" := by
  unfold getAppData
  simp only []
  rcases execDisk_cases f w (.selectAppData n) with
    ⟨h, _, hc⟩ | ⟨db, db2, rows, ho, hf, hfile, hrun, h, _⟩
  · rw [h]
    rcases hc with hc | hc | hc | ⟨db, hfile, hrun⟩
    · simp [hc]
    · simp [hc]
    · simp [World.rows, hc, valueOfRows]
    · simp only [Database.run] at hrun
      split_ifs at hrun with ht
      simp [World.rows, hfile, Database.appDataRows, ht, valueOfRows]
  · rw [h]
    simp only [Database.run] at hrun
    split_ifs at hrun with ht
    simp only [Option.some.injEq, Prod.mk.injEq] at hrun
    simp only [ho, hf, Bool.and_self, if_true, World.rows, hfile, Option.bind,
      Database.appDataRows, ht, valueOfRows]
    rw [← hrun.2]
    cases (List.filter (fun r => r.1 == n) db.appData).map Prod.snd <;> rfl

theorem setAppData_rows (f : Faults) (w : World) (n v : String) :
    ((setAppData f w n v).2 = false ∧ (setAppData f w n v).1.file = w.file) ∨
      ((setAppData f w n v).2 = true ∧ w.diskOpen = true ∧
        f (.disk (.replaceAppData n v)) = true ∧
        ∃ r, w.rows = some r ∧
          (setAppData f w n v).1.rows = some (r.filter (fun x => x.1 != n) ++ [(n, v)])) := by
  unfold setAppData
  rcases execDisk_cases f w (.replaceAppData n v) with
    ⟨h, hfile, _⟩ | ⟨db, db2, rows, ho, hf, hfile, hrun, h, h2⟩
  · left; simp [h, hfile]
  · right
    simp only [Database.run] at hrun
    split_ifs at hrun with ht
    simp only [Option.some.injEq, Prod.mk.injEq] at hrun
    refine ⟨by simp [h], ho, hf, db.appData, ?_, ?_⟩
    · simp [World.rows, hfile, Database.appDataRows, ht]
    · rw [World.rows, h2, ← hrun.1]
      simp only [Option.bind, Database.appDataRows]
      have : Database.hasTable ⟨db.tables, db.indexes,
          List.filter (fun r => r.1 != n) db.appData ++ [(n, v)]⟩ "appData" = true := ht
      simp [this]

/-! ## Lemmas: the stored version across one run -/

theorem beforeWrite_rows (f : Faults) (w : World) :
    (beforeWrite f w).rows = (execDisk f w createAppData).1.rows ∧
      (beforeWrite f w).diskOpen = w.diskOpen := by
  have h3 : ∀ w3 : World, (execMemory f
      (getAppData f (execDisk f w createAppData).1 "database_version").1 createNote).1 = w3 →
      w3.rows = (execDisk f w createAppData).1.rows ∧ w3.diskOpen = w.diskOpen := by
    intro w3 h
    subst h
    constructor
    · rw [World.rows, (execMemory_file _ _ _).1, getAppData_fst, execDisk_select]
      rfl
    · rw [(execMemory_file _ _ _).2, getAppData_fst, execDisk_diskOpen, execDisk_diskOpen]
  have h3 := h3 _ rfl
  unfold beforeWrite
  simp only []
  by_cases h1 : versionRead f w < 1 <;> by_cases h2 : versionRead f w < 2 <;>
    simp only [h1, h2, if_true, if_false, updateAllSortPriorities, World.rows] <;>
    first
      | exact h3
      | exact ⟨((step1_rows f _).1.trans h3.1), ((step1_rows f _).2.trans h3.2)⟩

theorem storedVersion_createAppData (f : Faults) (w : World) :
    storedVersion (execDisk f w createAppData).1 = storedVersion w := by
  rw [storedVersion_eq, storedVersion_eq]
  rcases execDisk_createAppData_rows f w with h | ⟨h0, h1⟩
  · rw [h]
  · rw [h0, h1]; rfl

/-- The version that line 101 reads is the stored one, unless the query fails. -/
theorem versionRead_stored (f : Faults) (w : World) :
    versionRead f w =
      if w.diskOpen && f (.disk (.selectAppData "database_version")) then storedVersion w
      else 0 := by
  unfold versionRead
  rw [getAppData_value, execDisk_diskOpen]
  split_ifs
  · rw [← storedVersion_eq, storedVersion_createAppData]
  · exact toInt_empty

theorem versionRead_range (f : Faults) (w : World) :
    -2147483648 ≤ versionRead f w ∧ versionRead f w ≤ 2147483647 :=
  toInt_range _

theorem toInt_number_max (k : Int) (h : k ≤ 2147483647) : toInt (number (max k 2)) = max k 2 := by
  have h0 : (0 : Int) ≤ max k 2 := by omega
  obtain ⟨n, hn⟩ := Int.eq_ofNat_of_zero_le h0
  rw [hn]
  exact toInt_number_nat n (by omega)

/-- The stored version after one run: the written one when the version write
succeeds, the old one when it fails. -/
theorem setupTables_stored (f : Faults) (w : World) :
    ((setAppData f (beforeWrite f w) "database_version"
          (number (max (versionRead f w) 2))).2 = false ∧
        storedVersion (setupTables f w).1 = storedVersion w) ∨
    ((setAppData f (beforeWrite f w) "database_version"
          (number (max (versionRead f w) 2))).2 = true ∧ w.diskOpen = true ∧
        storedVersion (setupTables f w).1 = max (versionRead f w) 2) := by
  rw [setupTables_eq]
  rcases setAppData_rows f (beforeWrite f w) "database_version"
      (number (max (versionRead f w) 2)) with ⟨h, hfile⟩ | ⟨h, ho, _, r, _, hr⟩
  · left
    refine ⟨h, ?_⟩
    rw [storedVersion_eq, World.rows, hfile, ← World.rows, (beforeWrite_rows f w).1,
      ← storedVersion_eq, storedVersion_createAppData]
  · right
    refine ⟨h, (beforeWrite_rows f w).2 ▸ ho, ?_⟩
    rw [storedVersion_eq, hr]
    simp only [valueOfRows, filter_replace, List.map_cons, List.map_nil]
    exact toInt_number_max _ (versionRead_range f w).2

/-- One run never lowers the stored version when its version query is not made
to fail. -/
theorem setupTables_monotone (f : Faults) (w : World)
    (hf : f (.disk (.selectAppData "database_version")) = true) :
    storedVersion w ≤ storedVersion (setupTables f w).1 := by
  rcases setupTables_stored f w with ⟨_, h⟩ | ⟨_, ho, h⟩
  · rw [h]
  · rw [h, versionRead_stored, ho, hf]
    simp

/-! ## Lemmas: a run on an empty database -/

theorem execDisk_ok (f : Faults) (w : World) (s : Stmt) (db db2 : Database)
    (rows : List String) (ho : w.diskOpen = true) (hf : f (.disk s) = true)
    (hfile : w.file = some db) (hrun : db.run s = some (db2, rows)) :
    (execDisk f w s).1.file = some db2 ∧ (execDisk f w s).1.diskOpen = true ∧
      (execDisk f w s).2 = some rows := by
  unfold execDisk
  simp [ho, hf, hfile, hrun]

theorem setAppData_ok (f : Faults) (w : World) (n v : String) (ho : w.diskOpen = true)
    (hf : f (.disk (.replaceAppData n v)) = true) (hr : w.rows ≠ none) :
    (setAppData f w n v).2 = true := by
  rcases setAppData_rows f w n v with ⟨h, _⟩ | ⟨h, _⟩
  · exfalso
    unfold setAppData at h
    rcases execDisk_cases f w (.replaceAppData n v) with
      ⟨_, _, hc⟩ | ⟨_, _, _, _, _, _, _, h2, _⟩
    · rcases hc with hc | hc | hc | ⟨db, hfile, hrun⟩
      · simp [ho] at hc
      · simp [hf] at hc
      · exact hr (by simp [World.rows, hc])
      · simp only [Database.run] at hrun
        split_ifs at hrun with ht
        exact hr (by simp [World.rows, hfile, Database.appDataRows, ht])
    · simp [h2] at h
  · exact h

theorem step1_fresh (f : Faults) (w : World) (ho : w.diskOpen = true)
    (hfile : w.file = some ⟨[⟨"appData", ["name", "value"]⟩], [], []⟩)
    (hf : ∀ s, f (.disk s) = true) :
    (step1 f w).file = some { migratedDb with appData := [] } ∧
      (step1 f w).diskOpen = true := by
  unfold step1
  simp [execDisk, ho, hf, hfile, Database.run, Database.hasTable, Database.hasIndex,
    Database.hasColumn, createCalendarItem, createIdxUrl, addCompletedDate, addSortPriority,
    migratedDb]

theorem setupTables_fresh (f : Faults) (w : World) (ho : w.diskOpen = true)
    (hfile : w.file = some Database.empty) (hf : ∀ s, f (.disk s) = true) :
    versionRead f w = 0 ∧ (setupTables f w).1.file = some migratedDb ∧
      (setupTables f w).1.diskOpen = true := by
  obtain ⟨a1, a2, _⟩ := execDisk_ok f w createAppData Database.empty
    ⟨[⟨"appData", ["name", "value"]⟩], [], []⟩ [] ho (hf _) hfile (by decide)
  have hk : versionRead f w = 0 := by
    unfold versionRead
    rw [getAppData_value, a2, hf]
    simp only [World.rows, a1]
    decide
  have b1 : (execMemory f (getAppData f (execDisk f w createAppData).1
      "database_version").1 createNote).1.file = _ :=
    ((execMemory_file _ _ _).1.trans (by rw [getAppData_fst, execDisk_select])).trans a1
  have b2 : (execMemory f (getAppData f (execDisk f w createAppData).1
      "database_version").1 createNote).1.diskOpen = true := by
    rw [(execMemory_file _ _ _).2, getAppData_fst, execDisk_diskOpen]
    exact a2
  obtain ⟨g1, g2⟩ := step1_fresh f _ b2 b1 hf
  have hb : beforeWrite f w = updateAllSortPriorities (step1 f (execMemory f
      (getAppData f (execDisk f w createAppData).1 "database_version").1 createNote).1) := by
    unfold beforeWrite
    simp [hk]
  have hw1 : (beforeWrite f w).file = some { migratedDb with appData := [] } := by
    rw [hb]; exact g1
  have hw2 : (beforeWrite f w).diskOpen = true := by rw [hb]; exact g2
  obtain ⟨k1, k2, _⟩ := execDisk_ok f _ (.replaceAppData "database_version" "2") _
    migratedDb [] hw2 (hf _) hw1 (by decide)
  refine ⟨hk, ?_, ?_⟩
  · rw [setupTables_eq, hk]
    exact k1
  · rw [setupTables_eq, hk]
    exact k2

/-! ## Lemmas: a run on a migrated database -/

theorem setupTables_diskOpen (f : Faults) (w : World) :
    (setupTables f w).1.diskOpen = w.diskOpen := by
  rw [setupTables_eq]
  simp only [setAppData, execDisk_diskOpen, (beforeWrite_rows f w).2]

theorem hasTable_of_storedVersion (w : World) (h : storedVersion w ≠ 0) :
    ∃ db, w.file = some db ∧ db.hasTable "appData" = true := by
  unfold storedVersion at h
  cases hfile : w.file with
  | none => simp [hfile] at h
  | some db =>
    refine ⟨db, rfl, ?_⟩
    by_contra ht
    simp [hfile, Database.version, Database.run, ht] at h

theorem setAppData_schema (f : Faults) (w : World) (n v : String) :
    (setAppData f w n v).1.schema = w.schema := by
  unfold setAppData
  rcases execDisk_cases f w (.replaceAppData n v) with
    ⟨_, h, _⟩ | ⟨db, db2, rows, _, _, hfile, hrun, _, h⟩
  · simp [World.schema, h]
  · simp only [Database.run] at hrun
    split_ifs at hrun
    simp only [Option.some.injEq, Prod.mk.injEq] at hrun
    simp [World.schema, h, hfile, ← hrun.1]

theorem beforeWrite_log_head (f : Faults) (w : World) :
    ∃ rest, (beforeWrite f w).log =
      w.log ++ (.disk createAppData, (execDisk f w createAppData).2.isSome) :: rest := by
  unfold beforeWrite
  by_cases h1 : versionRead f w < 1 <;> by_cases h2 : versionRead f w < 2 <;>
    simp only [h1, h2, if_true, if_false, step1, updateAllSortPriorities, execDisk_log,
      execMemory_log, getAppData_fst, List.append_assoc, List.singleton_append] <;>
    exact ⟨_, rfl⟩

theorem createAppData_fails (f : Faults) (w : World) (db : Database)
    (hfile : w.file = some db) (ht : db.hasTable "appData" = true) :
    (execDisk f w createAppData).2 = none ∧ (execDisk f w createAppData).1.file = w.file := by
  rcases execDisk_cases f w createAppData with
    ⟨h, h2, _⟩ | ⟨db1, db2, rows, _, _, hfile1, hrun, _, _⟩
  · exact ⟨h, h2⟩
  · rw [hfile] at hfile1
    cases hfile1
    simp [createAppData, Database.run, ht] at hrun

/-- One run on a database that is already migrated. -/
theorem setupTables_migrated (g : Faults) (v : World) (ho : v.diskOpen = true)
    (hv : 2 ≤ storedVersion v) (hg : g (.disk (.selectAppData "database_version")) = true) :
    versionRead g v = storedVersion v ∧
      (Op.disk createAppData, false) ∈ callLog v (setupTables g v).1 ∧
      (setupTables g v).1.schema = v.schema ∧
      storedVersion (setupTables g v).1 = storedVersion v := by
  have hk : versionRead g v = storedVersion v := by
    rw [versionRead_stored, ho, hg]; rfl
  obtain ⟨db, hfile, ht⟩ := hasTable_of_storedVersion v (by omega)
  obtain ⟨c1, c2⟩ := createAppData_fails g v db hfile ht
  have hb : beforeWrite g v = (execMemory g
      (getAppData g (execDisk g v createAppData).1 "database_version").1 createNote).1 := by
    unfold beforeWrite
    have h1 : ¬ versionRead g v < 1 := by omega
    have h2 : ¬ versionRead g v < 2 := by omega
    simp [h1, h2]
  refine ⟨hk, ?_, ?_, ?_⟩
  · obtain ⟨rest, hrest⟩ := beforeWrite_log_head g v
    rw [setupTables_eq]
    simp only [callLog, setAppData, execDisk_log, hrest, c1, Option.isSome_none,
      List.append_assoc, List.drop_left]
    exact List.mem_cons_self _ _
  · rw [setupTables_eq, setAppData_schema, hb, World.schema, (execMemory_file _ _ _).1,
      getAppData_fst, execDisk_select, c2]
    rfl
  · rcases setupTables_stored g v with ⟨_, h⟩ | ⟨_, _, h⟩
    · exact h
    · rw [h, hk]; omega

/-! ## Theorems -/

/-- C9 (permissive step failures): whatever succeeds or fails, two runs of
`setupTables` that read the same version attempt the same sequence of
statements and hooks and pass the same version to `setAppData`, and both return
true; with `g := noFaults` this compares a run with the run in which nothing is
made to fail. -/
theorem setupTables_permissive (f g : Faults) (w v : World)
    (h : versionRead f w = versionRead g v) :
    attempted (callLog w (setupTables f w).1) = attempted (callLog v (setupTables g v).1) ∧
      versionsWritten (attempted (callLog w (setupTables f w).1)) =
        versionsWritten (attempted (callLog v (setupTables g v).1)) ∧
      versionsWritten (attempted (callLog w (setupTables f w).1)) =
        [number (max (versionRead f w) 2)] ∧
      (setupTables f w).2 = true ∧ (setupTables g v).2 = true := by
  rw [setupTables_callLog, setupTables_callLog, h]
  refine ⟨rfl, rfl, ?_, by rw [setupTables_eq], by rw [setupTables_eq]⟩
  unfold plannedOps versionsWritten
  split_ifs <;> simp [createAppData, createNote, createCalendarItem, createIdxUrl,
    addCompletedDate, addSortPriority]

/-- Witness for C9: on a fresh database, the run in which `CREATE TABLE
calendarItem` is made to fail (so that the rest of step 1 fails too) against the
run without faults. -/
theorem setupTables_permissive_witness :
    versionRead (failOnly (.disk createCalendarItem)) freshWorld
        = versionRead noFaults freshWorld ∧
      attempted (callLog freshWorld
          (setupTables (failOnly (.disk createCalendarItem)) freshWorld).1) =
        attempted (callLog freshWorld (setupTables noFaults freshWorld).1) ∧
      (setupTables (failOnly (.disk createCalendarItem)) freshWorld).2 = true :=
  have h := setupTables_permissive (failOnly (.disk createCalendarItem)) noFaults
    freshWorld freshWorld (by decide)
  ⟨by decide, h.1, h.2.2.2.1⟩

theorem valueOfRows_lookup (n : String) (rows : List (String × String)) :
    valueOfRows n (some rows) = (rows.lookup n).getD "" := by
  induction rows with
  | nil => rfl
  | cons r rs ih =>
    obtain ⟨k, v⟩ := r
    by_cases h : k = n
    · subst h
      simp [valueOfRows, List.lookup, List.filter_cons]
    · have h2 : (n == k) = false := by simpa using fun e => h e.symm
      have h3 : (k == n) = false := by simpa using h
      simp only [valueOfRows, List.filter_cons, h3, List.lookup, h2] at ih ⊢
      exact ih

/-- C6 (lenient read): `getAppData` returns a plain string.  When the query
succeeds it is the stored value if an entry of that name exists and the empty
string if none exists; when the query fails it is the empty string; and the
query fails when table `appData` is missing. -/
theorem getAppData_lenient (f : Faults) (w : World) (name : String) :
    (∀ db v, w.diskOpen = true → f (.disk (.selectAppData name)) = true →
        w.file = some db → db.hasTable "appData" = true →
        db.appData.lookup name = some v → (getAppData f w name).2 = v) ∧
    (∀ db, w.diskOpen = true → f (.disk (.selectAppData name)) = true →
        w.file = some db → db.hasTable "appData" = true →
        db.appData.lookup name = none → (getAppData f w name).2 = "") ∧
    ((execDisk f w (.selectAppData name)).2 = none → (getAppData f w name).2 = "") ∧
    ((∀ db, w.file = some db → db.hasTable "appData" = false) →
        (execDisk f w (.selectAppData name)).2 = none) := by
  refine ⟨?_, ?_, ?_, ?_⟩
  · intro db v ho hf hfile ht hl
    rw [getAppData_value, ho, hf]
    simp [World.rows, hfile, Database.appDataRows, ht, valueOfRows_lookup, hl]
  · intro db ho hf hfile ht hl
    rw [getAppData_value, ho, hf]
    simp [World.rows, hfile, Database.appDataRows, ht, valueOfRows_lookup, hl]
  · intro h
    unfold getAppData
    simp only [h]
  · intro h
    rcases execDisk_cases f w (.selectAppData name) with
      ⟨h1, _⟩ | ⟨db, db2, rows, _, _, hfile, hrun, _, _⟩
    · exact h1
    · simp [Database.run, h db hfile] at hrun

/-- Witness for C6: an existing entry, a missing entry, a failing query and a
missing table. -/
theorem getAppData_lenient_witness :
    (getAppData noFaults (stampedWorld "7") "database_version").2 = "7" ∧
      (getAppData noFaults (stampedWorld "7") "other").2 = "" ∧
      (getAppData (failOnly (.disk (.selectAppData "database_version")))
          (stampedWorld "7") "database_version").2 = "" ∧
      (execDisk noFaults freshWorld (.selectAppData "database_version")).2 = none :=
  ⟨(getAppData_lenient noFaults (stampedWorld "7") "database_version").1 _ "7"
      (by decide) (by decide) rfl (by decide) (by decide),
    (getAppData_lenient noFaults (stampedWorld "7") "other").2.1 _
      (by decide) (by decide) rfl (by decide) (by decide),
    (getAppData_lenient (failOnly (.disk (.selectAppData "database_version")))
      (stampedWorld "7") "database_version").2.2.1 (by decide),
    (getAppData_lenient noFaults freshWorld "database_version").2.2.2
      (by intro db h; cases h; decide)⟩

/-- C8, as the code behaves: `reinitializeDiskDatabase` returns true exactly
when the file removal and the reconnect succeed, whatever happens to the
statements of the migration. -/
theorem reinitialize_result (f : Faults) (w : World) :
    (reinitializeDiskDatabase f w).2 =
      ((removeDiskDatabase f w).2 && (createDiskConnection f (removeDiskDatabase f w).1).2) := by
  unfold reinitializeDiskDatabase
  simp only []
  cases h1 : (removeDiskDatabase f w).2
  · simp
  · cases h2 : (createDiskConnection f (removeDiskDatabase f w).1).2
    · simp
    · simp [setupTables_eq]

/-- C8 refuted as stated: removal and reconnect succeed, `CREATE TABLE
calendarItem` fails (first run) or the final version write fails (second run),
and `reinitializeDiskDatabase` still returns true. -/
theorem reinitialize_hides_failure :
    ((removeDiskDatabase (failOnly (.disk createCalendarItem)) freshWorld).2 = true ∧
      (createDiskConnection (failOnly (.disk createCalendarItem))
        (removeDiskDatabase (failOnly (.disk createCalendarItem)) freshWorld).1).2 = true ∧
      (Op.disk createCalendarItem, false) ∈
        (reinitializeDiskDatabase (failOnly (.disk createCalendarItem)) freshWorld).1.log ∧
      (reinitializeDiskDatabase (failOnly (.disk createCalendarItem)) freshWorld).2 = true) ∧
    ((Op.disk (.replaceAppData "database_version" "2"), false) ∈
        (reinitializeDiskDatabase
          (failOnly (.disk (.replaceAppData "database_version" "2"))) freshWorld).1.log ∧
      (reinitializeDiskDatabase
          (failOnly (.disk (.replaceAppData "database_version" "2"))) freshWorld).2 = true) := by
  decide

/-- C10 (short-circuit reset): a disk connection is opened only after a
successful removal, any statement or hook runs only after a successful removal
and a successful reconnect, and without a database file the removal and the
whole reset return false and leave the world untouched (nothing opened, nothing
run). -/
theorem reinitialize_short_circuit (f : Faults) (w : World) :
    (Op.openDisk ∈ attempted (callLog w (reinitializeDiskDatabase f w).1) →
        (removeDiskDatabase f w).2 = true) ∧
    (∀ op ∈ attempted (callLog w (reinitializeDiskDatabase f w).1),
        op ≠ .removeFile → op ≠ .openDisk →
        (removeDiskDatabase f w).2 = true ∧
          (createDiskConnection f (removeDiskDatabase f w).1).2 = true) ∧
    (w.file = none →
        (removeDiskDatabase f w).2 = false ∧ (reinitializeDiskDatabase f w).2 = false ∧
          (reinitializeDiskDatabase f w).1 = w) := by
  unfold reinitializeDiskDatabase removeDiskDatabase createDiskConnection
  cases hfile : w.file <;> cases h1 : f .removeFile <;> cases h2 : f .openDisk <;>
    simp [callLog, attempted, hfile, h1, h2]

/-- Witness for C10: with a database file and no faults the connection is
opened after the removal; without a file nothing happens. -/
theorem reinitialize_short_circuit_witness :
    (removeDiskDatabase noFaults freshWorld).2 = true ∧
      (removeDiskDatabase noFaults freshWorld).2 = true ∧
      (createDiskConnection noFaults (removeDiskDatabase noFaults freshWorld).1).2 = true ∧
      (reinitializeDiskDatabase noFaults noFileWorld).2 = false ∧
      (reinitializeDiskDatabase noFaults noFileWorld).1 = noFileWorld :=
  ⟨(reinitialize_short_circuit noFaults freshWorld).1 (by decide),
    ((reinitialize_short_circuit noFaults freshWorld).2.1 (.disk createAppData) (by decide)
      (by decide) (by decide)).1,
    ((reinitialize_short_circuit noFaults freshWorld).2.1 (.disk createAppData) (by decide)
      (by decide) (by decide)).2,
    ((reinitialize_short_circuit noFaults noFileWorld).2.2 rfl).2.1,
    ((reinitialize_short_circuit noFaults noFileWorld).2.2 rfl).2.2⟩

/-- C1 (fresh-install completeness): on an open disk connection to an empty
database on which no disk statement is made to fail, one call of `setupTables`
returns true, applies step 1 and then step 2, and leaves the stored version at
2, held as the text "2", with table `appData`, table `calendarItem` including
the columns `completed_date` and `sort_priority`, and the index `idxUrl` on
`calendarItem(url)`. -/
theorem setupTables_fresh_install (f : Faults) (w : World) (ho : w.diskOpen = true)
    (hfile : w.file = some Database.empty) (hf : ∀ s, f (.disk s) = true) :
    (setupTables f w).2 = true ∧
      storedVersion (setupTables f w).1 = 2 ∧
      appliedSteps (attempted (callLog w (setupTables f w).1)) = [1, 2] ∧
      ∃ db, (setupTables f w).1.file = some db ∧
        db.appData = [("database_version", "2")] ∧
        db.hasTable "appData" = true ∧
        db.hasTable "calendarItem" = true ∧
        db.hasColumn "calendarItem" "completed_date" = true ∧
        db.hasColumn "calendarItem" "sort_priority" = true ∧
        (⟨"idxUrl", "calendarItem", "url"⟩ : Index) ∈ db.indexes := by
  obtain ⟨hk, h1, _⟩ := setupTables_fresh f w ho hfile hf
  refine ⟨by rw [setupTables_eq], ?_, ?_, migratedDb, h1, ?_⟩
  · rw [storedVersion, h1]; decide
  · rw [setupTables_callLog, hk]; decide
  · decide

/-- Witness for C1: the fresh world without faults. -/
theorem setupTables_fresh_install_witness :
    storedVersion (setupTables noFaults freshWorld).1 = 2 ∧
      (setupTables noFaults freshWorld).1.file = some migratedDb :=
  have h := setupTables_fresh_install noFaults freshWorld rfl rfl (fun _ => rfl)
  ⟨h.2.1, by decide⟩

/-- C2, as the code behaves: with `k` the version read at the start of
`setupTables`, step 1 (the `calendarItem` DDL) is applied iff `k < 1`, step 2
(the hook) iff `k < 2`, the applied steps are the defined steps above `k` in
ascending order, and the version passed to the write is `max k 2`: the highest
step number when `k ≤ 2`, and `k` itself when `k` is higher.  A database stamped
at version 1 gets step 2 only, no `calendarItem` DDL, and ends at version 2 when
the version write is not made to fail. -/
theorem setupTables_gap_jump (f : Faults) (w : World) :
    (Op.disk createCalendarItem ∈ attempted (callLog w (setupTables f w).1)
        ↔ versionRead f w < 1) ∧
    (Op.hook ∈ attempted (callLog w (setupTables f w).1) ↔ versionRead f w < 2) ∧
    appliedSteps (attempted (callLog w (setupTables f w).1)) =
      [1, 2].filter (fun (v : Nat) => versionRead f w < (v : Int)) ∧
    versionsWritten (attempted (callLog w (setupTables f w).1)) =
      [number (if versionRead f w ≤ 2 then 2 else versionRead f w)] ∧
    (storedVersion w = 1 → w.diskOpen = true →
      f (.disk (.selectAppData "database_version")) = true →
      versionRead f w = 1 ∧
        appliedSteps (attempted (callLog w (setupTables f w).1)) = [2] ∧
        diskDDL (attempted (callLog w (setupTables f w).1)) = [createAppData] ∧
        versionsWritten (attempted (callLog w (setupTables f w).1)) = ["2"] ∧
        (f (.disk (.replaceAppData "database_version" "2")) = true →
          storedVersion (setupTables f w).1 = 2)) := by
  have hplan : ∀ k : Int,
      (Op.disk createCalendarItem ∈ plannedOps k ↔ k < 1) ∧
      (Op.hook ∈ plannedOps k ↔ k < 2) ∧
      appliedSteps (plannedOps k) = [1, 2].filter (fun (v : Nat) => k < (v : Int)) ∧
      versionsWritten (plannedOps k) = [number (if k ≤ 2 then 2 else k)] := by
    intro k
    have hm : max k 2 = if k ≤ 2 then 2 else k := by split_ifs <;> omega
    unfold plannedOps
    rw [hm]
    by_cases h1 : k < 1
    · have h2 : k < 2 := by omega
      have h3 : k ≤ 2 := by omega
      simp [h1, h2, h3, appliedSteps, versionsWritten, createAppData, createNote,
        createCalendarItem, createIdxUrl, addCompletedDate, addSortPriority]
    · by_cases h2 : k < 2
      · have h3 : k ≤ 2 := by omega
        simp [h1, h2, h3, appliedSteps, versionsWritten, createAppData, createNote,
          createCalendarItem, createIdxUrl, addCompletedDate, addSortPriority]
      · by_cases h3 : k ≤ 2
        · simp [h1, h2, h3, appliedSteps, versionsWritten, createAppData, createNote,
            createCalendarItem, createIdxUrl, addCompletedDate, addSortPriority]
        · simp [h1, h2, h3, appliedSteps, versionsWritten, createAppData, createNote,
            createCalendarItem, createIdxUrl, addCompletedDate, addSortPriority]
  rw [setupTables_callLog]
  obtain ⟨p1, p2, p3, p4⟩ := hplan (versionRead f w)
  refine ⟨p1, p2, p3, p4, ?_⟩
  intro hs ho hf
  have hk : versionRead f w = 1 := by
    rw [versionRead_stored, ho, hf, ← hs]; rfl
  rw [hk]
  refine ⟨rfl, by decide, by decide, by decide, ?_⟩
  intro hw
  have hrows : (beforeWrite f w).rows ≠ none := by
    rw [(beforeWrite_rows f w).1]
    obtain ⟨db, hfile, ht⟩ := hasTable_of_storedVersion w (by omega)
    rw [World.rows, (createAppData_fails f w db hfile ht).2, hfile]
    simp [Database.appDataRows, ht]
  have hok := setAppData_ok f (beforeWrite f w) "database_version" "2"
    ((beforeWrite_rows f w).2.trans ho) hw hrows
  rcases setupTables_stored f w with ⟨h, _⟩ | ⟨_, _, h⟩
  · rw [hk] at h
    rw [show number (max 1 2) = "2" from by decide, hok] at h
    exact absurd h (by decide)
  · rw [h, hk]; rfl

/-- Witness for C2: the database stamped at version 1, without faults. -/
theorem setupTables_gap_jump_witness :
    versionRead noFaults (stampedWorld "1") = 1 ∧
      appliedSteps (attempted (callLog (stampedWorld "1")
        (setupTables noFaults (stampedWorld "1")).1)) = [2] ∧
      storedVersion (setupTables noFaults (stampedWorld "1")).1 = 2 :=
  have h := (setupTables_gap_jump noFaults (stampedWorld "1")).2.2.2.2
    (by decide) (by decide) (by decide)
  ⟨h.1, h.2.1, h.2.2.2.2 (by decide)⟩

/-- C2 refuted as stated: a database stamped at version 5 is read as version 5
and 5, not the highest step number 2, is written back. -/
theorem setupTables_writes_back_higher :
    versionRead noFaults (stampedWorld "5") = 5 ∧
      versionsWritten (attempted (callLog (stampedWorld "5")
        (setupTables noFaults (stampedWorld "5")).1)) = ["5"] ∧
      storedVersion (setupTables noFaults (stampedWorld "5")).1 = 5 ∧
      "5" ≠ number 2 := by
  decide

/-- C3, as the code behaves: when the first run has left the database stamped
(stored version at least 2) and the version query of the second run is not made
to fail, the second run applies no step: on the disk connection it issues the
version query, the version write of the unchanged version, and one DDL
statement, the unconditional `CREATE TABLE appData`, which fails; besides it
issues the unconditional `CREATE TABLE note` on the memory connection.  The disk
schema and the stored version are unchanged. -/
theorem setupTables_idempotent (f g : Faults) (w : World) (ho : w.diskOpen = true)
    (hstamped : 2 ≤ storedVersion (setupTables f w).1)
    (hg : g (.disk (.selectAppData "database_version")) = true) :
    attempted (callLog (setupTables f w).1 (setupTables g (setupTables f w).1).1) =
      [.disk createAppData, .disk (.selectAppData "database_version"), .memory createNote,
       .disk (.replaceAppData "database_version"
          (number (storedVersion (setupTables f w).1)))] ∧
    appliedSteps (attempted
      (callLog (setupTables f w).1 (setupTables g (setupTables f w).1).1)) = [] ∧
    diskDDL (attempted
      (callLog (setupTables f w).1 (setupTables g (setupTables f w).1).1)) = [createAppData] ∧
    (Op.disk createAppData, false) ∈
      callLog (setupTables f w).1 (setupTables g (setupTables f w).1).1 ∧
    (setupTables g (setupTables f w).1).1.schema = (setupTables f w).1.schema ∧
    storedVersion (setupTables g (setupTables f w).1).1 =
      storedVersion (setupTables f w).1 := by
  have ho1 : (setupTables f w).1.diskOpen = true := (setupTables_diskOpen f w).trans ho
  obtain ⟨hk, hlog, hschema, hver⟩ := setupTables_migrated g _ ho1 hstamped hg
  have h1 : ¬ storedVersion (setupTables f w).1 < 1 := by omega
  have h2 : ¬ storedVersion (setupTables f w).1 < 2 := by omega
  have hm : max (storedVersion (setupTables f w).1) 2 = storedVersion (setupTables f w).1 := by
    omega
  refine ⟨?_, ?_, ?_, hlog, hschema, hver⟩
  · rw [setupTables_callLog, hk]
    simp [plannedOps, h1, h2, hm]
  · rw [setupTables_callLog, hk]
    simp [plannedOps, h1, h2, hm, appliedSteps, createAppData, createNote, createCalendarItem]
  · rw [setupTables_callLog, hk]
    simp [plannedOps, h1, h2, hm, diskDDL, createAppData, createNote, Stmt.isDDL]

/-- Witness for C3: two runs without faults from the fresh world. -/
theorem setupTables_idempotent_witness :
    appliedSteps (attempted (callLog (setupTables noFaults freshWorld).1
        (setupTables noFaults (setupTables noFaults freshWorld).1).1)) = [] ∧
      storedVersion (setupTables noFaults (setupTables noFaults freshWorld).1).1 =
        storedVersion (setupTables noFaults freshWorld).1 :=
  have h := setupTables_idempotent noFaults noFaults freshWorld (by decide) (by decide)
    (by decide)
  ⟨h.2.1, h.2.2.2.2.2⟩

/-- C3 refuted as stated: the second of two runs without faults on a fresh
database issues a DDL statement on the disk connection, `CREATE TABLE appData`;
and when the version write of the first run fails, the second run issues the
whole DDL of step 1 again. -/
theorem setupTables_second_run_issues_ddl :
    diskDDL (attempted (callLog (setupTables noFaults freshWorld).1
        (setupTables noFaults (setupTables noFaults freshWorld).1).1)) = [createAppData] ∧
    diskDDL (attempted (callLog
        (setupTables (failOnly (.disk (.replaceAppData "database_version" "2"))) freshWorld).1
        (setupTables noFaults
          (setupTables (failOnly (.disk (.replaceAppData "database_version" "2")))
            freshWorld).1).1)) =
      [createAppData, createCalendarItem, createIdxUrl, addCompletedDate, addSortPriority] := by
  decide

/-- C4, as the code behaves: over any sequence of `setupTables` invocations in
none of which the version query is made to fail, and from any world (whatever
the version entry holds), the stored version after each invocation is at least
the stored version before it. -/
theorem storedVersion_monotone (fs : List Faults) (w : World)
    (hfs : ∀ f ∈ fs, f (.disk (.selectAppData "database_version")) = true) :
    List.Chain' (fun a b => storedVersion a ≤ storedVersion b) (runAll fs w) := by
  induction fs generalizing w with
  | nil => exact List.chain'_singleton w
  | cons f fs ih =>
    have hf := hfs f (List.mem_cons_self _ _)
    have hrest := ih (setupTables f w).1 (fun g hg => hfs g (List.mem_cons_of_mem _ hg))
    rw [runAll, List.chain'_cons']
    refine ⟨?_, hrest⟩
    intro y hy
    have hy2 : y = (setupTables f w).1 := by
      cases fs <;> simp [runAll] at hy <;> exact hy.symm
    rw [hy2]
    exact setupTables_monotone f w hf

/-- Witness for C4: three runs from a database whose version entry is no
number. -/
theorem storedVersion_monotone_witness :
    List.Chain' (fun a b => storedVersion a ≤ storedVersion b)
      (runAll [noFaults, failOnly (.disk createIdxUrl), noFaults] (stampedWorld "abc")) :=
  storedVersion_monotone [noFaults, failOnly (.disk createIdxUrl), noFaults]
    (stampedWorld "abc") (by decide)

/-- C4 refuted as stated: on a database stamped at version 5, a run whose
version query fails reads version 0, applies both steps and stamps 2. -/
theorem storedVersion_drops_on_failed_read :
    storedVersion (stampedWorld "5") = 5 ∧
      storedVersion (setupTables (failOnly (.disk (.selectAppData "database_version")))
        (stampedWorld "5")).1 = 2 := by
  decide

/-- C5, as the code behaves: when `setAppData(x, y)` returns true (the disk
connection is open and table `appData` exists) and the query of the following
`getAppData(x)` is not made to fail, `getAppData(x)` returns `y`, and `appData`
then holds exactly one entry for `x`, the entry `(x, y)`. -/
theorem setAppData_getAppData (f g : Faults) (w : World) (x y : String)
    (hset : (setAppData f w x y).2 = true)
    (hg : g (.disk (.selectAppData x)) = true) :
    (getAppData g (setAppData f w x y).1 x).2 = y ∧
      ∃ rows, (setAppData f w x y).1.rows = some rows ∧
        rows.filter (fun r => r.1 == x) = [(x, y)] := by
  rcases setAppData_rows f w x y with ⟨h, _⟩ | ⟨_, ho, _, r, _, hr⟩
  · rw [h] at hset; cases hset
  · have ho2 : (setAppData f w x y).1.diskOpen = true := by
      unfold setAppData
      rw [execDisk_diskOpen]; exact ho
    refine ⟨?_, _, hr, filter_replace r x y⟩
    rw [getAppData_value, ho2, hg, hr]
    simp only [Bool.and_self, if_true, valueOfRows, filter_replace, List.map_cons,
      List.map_nil]

/-- Witness for C5: overwriting the version entry and inserting a new entry. -/
theorem setAppData_getAppData_witness :
    (getAppData noFaults (setAppData noFaults (stampedWorld "1") "database_version" "9").1
        "database_version").2 = "9" ∧
      (getAppData noFaults (setAppData noFaults (stampedWorld "1") "x" "y").1 "x").2 = "y" :=
  ⟨(setAppData_getAppData noFaults noFaults (stampedWorld "1") "database_version" "9"
      (by decide) (by decide)).1,
    (setAppData_getAppData noFaults noFaults (stampedWorld "1") "x" "y"
      (by decide) (by decide)).1⟩

/-- C5 refuted as stated: on an open disk database without table `appData`,
`setAppData` fails and the following `getAppData` returns the empty string. -/
theorem setAppData_without_table :
    (setAppData noFaults freshWorld "x" "y").2 = false ∧
      (getAppData noFaults (setAppData noFaults freshWorld "x" "y").1 "x").2 = "" ∧
      (getAppData noFaults (setAppData noFaults freshWorld "x" "y").1 "x").2 ≠ "y" := by
  decide

/-- C7, as the code behaves: from no file or an empty file and without faults,
opening the connections succeeds and after `setupTables` the version is found
under the key `database_version`, where `getAppData` returns "2"; the key
`schema_version` has no entry. -/
theorem bootstrap_version_key (f : Faults) (w : World) (hf : ∀ op, f op = true)
    (hfile : w.file = none ∨ w.file = some Database.empty) :
    (createConnection f w).2 = true ∧
      (getAppData f (setupTables f (createConnection f w).1).1 "database_version").2 = "2" ∧
      (getAppData f (setupTables f (createConnection f w).1).1 "schema_version").2 = "" := by
  have hc : (createConnection f w).2 = true ∧ (createConnection f w).1.diskOpen = true ∧
      (createConnection f w).1.file = some Database.empty := by
    unfold createConnection createMemoryConnection createDiskConnection
    rcases hfile with h | h <;> simp [hf, h]
  obtain ⟨_, h1, h2⟩ := setupTables_fresh f _ hc.2.1 hc.2.2 (fun s => hf _)
  refine ⟨hc.1, ?_, ?_⟩
  · rw [getAppData_value, h2, hf, World.rows, h1]; decide
  · rw [getAppData_value, h2, hf, World.rows, h1]; decide

/-- Witness for C7: the bootstrap from the world without a database file. -/
theorem bootstrap_version_key_witness :
    (getAppData noFaults (setupTables noFaults (createConnection noFaults noFileWorld).1).1
      "database_version").2 = "2" :=
  (bootstrap_version_key noFaults noFileWorld (fun _ => rfl) (Or.inl rfl)).2.1

/-- C7 refuted as stated: after the bootstrap from no file and from an empty
file, `getAppData("schema_version")` returns the empty string, not "2". -/
theorem bootstrap_schema_version_unset :
    (getAppData noFaults (setupTables noFaults (createConnection noFaults noFileWorld).1).1
        "schema_version").2 = "" ∧
      (getAppData noFaults (setupTables noFaults (createConnection noFaults noFileWorld).1).1
        "schema_version").2 ≠ "2" ∧
      (getAppData noFaults (setupTables noFaults (createConnection noFaults
        { noFileWorld with file := some Database.empty }).1).1 "schema_version").2 ≠ "2" := by
  decide

end DatabaseService
